import Mathlib

/-!
Verification of `scripts/utils/find_longest_functions.py`.

The script scans C source files, detects function definitions with a
line-oriented regex heuristic plus brace-depth tracking, and reports the
longest functions found.  We embed the scanner and the reporting driver as
pure Lean functions over lines represented as `List Char`, and prove the
specified properties about them.
-/

set_option maxHeartbeats 1600000

namespace FindLongest

/-- A source line, as a list of characters (one element of `readlines`,
after any processing). -/
abbrev Line := List Char

/-- Convenience conversion from a string literal to a `Line`. -/
def toLine (s : String) : Line := s.toList

/-- Whitespace characters recognised by Python's `str.strip` and by the
regex class `\s` (ASCII range). -/
def isPySpace (c : Char) : Bool :=
  c = ' ' || c = '\t' || c = '\n' || c = '\r' || c = '\x0b' || c = '\x0c'

/-- Word characters recognised by the regex class `\w` (ASCII range). -/
def isWordChar (c : Char) : Bool := c.isAlphanum || c = '_'

/-- Python `line.strip()`: remove leading and trailing whitespace. -/
def strip (l : Line) : Line :=
  ((l.dropWhile isPySpace).reverse.dropWhile isPySpace).reverse

/-- Whether `p` (a string literal) is a prefix of the line, modelling
Python `stripped.startswith(p)`. -/
def startsWith (p : String) (l : Line) : Bool := p.toList.isPrefixOf l

/-- Net brace contribution of a line:
`stripped.count('{') - stripped.count('}')`. -/
def braceDelta (l : Line) : Int := (l.count '{' : Int) - (l.count '}' : Int)

/-- The skip test of the scanner: `not stripped or stripped.startswith('//')
or stripped.startswith('#')`. -/
def skipLine (stripped : Line) : Bool :=
  stripped.isEmpty || startsWith "//" stripped || startsWith "#" stripped

/-! ### The signature regex

The scanner matches each stripped line against
`^(static\s+)?(\w+\s+\*?)(\w+)\s*\([^)]*\)\s*\{?$` and uses the capture of
group 3 as the function name.  For this particular pattern, Python's
backtracking is fully determined: each `\w+` and `\s+` must take its
maximal run (the following element rejects the character it would
otherwise leave behind), `\*?` must consume a `*` when one is present
(group 3 starts with `\w`, which a `*` is not), `[^)]*` is the maximal run
of non-`)` characters, and the trailing `\s*` is the maximal whitespace
run.  The only genuine alternative is whether the optional group 1
(`static` plus whitespace) participates, which we realise by trying the
match with group 1 first and falling back to the match without it. -/

/-- Attempt to consume group 1 `(static\s+)` from the front of the line,
returning the rest on success. -/
def dropStatic (s : Line) : Option Line :=
  if (toLine "static").isPrefixOf s then
    let r := s.drop 6
    let ws := r.takeWhile isPySpace
    if ws.isEmpty then none else some (r.drop ws.length)
  else none

/-- Match the remainder `(\w+\s+\*?)(\w+)\s*\([^)]*\)\s*\{?$` of the
signature regex against the whole of `s`, returning the capture of
group 3 (the function name) on success. -/
def matchTail (s : Line) : Option Line :=
  let w2 := s.takeWhile isWordChar
  if w2.isEmpty then none else
  let s1 := s.drop w2.length
  let ws := s1.takeWhile isPySpace
  if ws.isEmpty then none else
  let s2 := s1.drop ws.length
  let s3 := match s2 with
            | '*' :: rest => rest
            | _ => s2
  let nm := s3.takeWhile isWordChar
  if nm.isEmpty then none else
  let s4 := (s3.drop nm.length).dropWhile isPySpace
  match s4 with
  | '(' :: s5 =>
    match s5.drop (s5.takeWhile (fun c => !(c = ')'))).length with
    | ')' :: s6 =>
      match s6.dropWhile isPySpace with
      | [] => some nm
      | ['{'] => some nm
      | _ => none
    | _ => none
  | _ => none

/-- `func_pattern.match(stripped)`, returning the captured function name
(group 3) on success. -/
def sigMatch (s : Line) : Option Line :=
  match dropStatic s with
  | some rest => (matchTail rest).orElse (fun _ => matchTail s)
  | none => matchTail s

/-- The test `stripped.startswith('typedef')`. -/
def isTypedefLine (stripped : Line) : Bool := startsWith "typedef" stripped

/-- One detected function: the tuple
`(func_name, func_start, func_length, file_path)`. -/
structure FunctionRecord where
  name : Line
  start_line : Nat
  length : Nat
  source_path : String
deriving Repr, DecidableEq

/-- The loop state of `find_functions`. -/
structure ScanState where
  in_function : Bool
  func_start : Nat
  func_name : Line
  brace_count : Int
  functions : List FunctionRecord
deriving Repr, DecidableEq

/-- The state before the loop:
`in_function = False, func_start = 0, func_name = "", brace_count = 0`. -/
def initState : ScanState := ⟨false, 0, [], 0, []⟩

/-- One iteration of the loop of `find_functions`, for the line numbered
`i` (1-based).  The skip test comes first; a successful signature match
ends the iteration (`continue`), so the brace-tracking branch runs
exactly when `in_function` held at the start of the iteration. -/
def scanStep (path : String) (st : ScanState) (i : Nat) (line : Line) : ScanState :=
  let stripped := strip line
  if skipLine stripped then st
  else if st.in_function then
    let bc := st.brace_count + braceDelta stripped
    if bc = 0 then
      { in_function := false, func_start := st.func_start, func_name := [],
        brace_count := bc,
        functions := st.functions ++ [⟨st.func_name, st.func_start, i - st.func_start + 1, path⟩] }
    else
      { st with brace_count := bc }
  else
    match sigMatch stripped with
    | some nm =>
      if isTypedefLine stripped then st
      else { in_function := true, func_start := i, func_name := nm,
             brace_count := braceDelta stripped, functions := st.functions }
    | none => st

/-- Run the scanner over a list of lines, the first one numbered `i`. -/
def scanLinesFrom (path : String) (st : ScanState) (i : Nat) : List Line → ScanState
  | [] => st
  | l :: ls => scanLinesFrom path (scanStep path st i l) (i + 1) ls

/-- `find_functions(file_path)`.  The argument `readResult` is the outcome
of `open(file_path).readlines()`: `none` models the `except` branch (the
file could not be opened or read), `some lines` the successful read. -/
def find_functions (readResult : Option (List Line)) (path : String) :
    List FunctionRecord :=
  match readResult with
  | none => []
  | some lines => (scanLinesFrom path initState 1 lines).functions

/-! ### The driver `main` -/

/-- The sort key relation of `all_functions.sort(key=lambda x: x[2],
reverse=True)`: `a` may come before `b` when `b.length ≤ a.length`. -/
def lenDescRel (a b : FunctionRecord) : Prop := b.length ≤ a.length

instance : DecidableRel lenDescRel := fun a b => Nat.decLe b.length a.length

instance : IsTotal FunctionRecord lenDescRel :=
  ⟨fun a b => Nat.le_total b.length a.length⟩

instance : IsTrans FunctionRecord lenDescRel :=
  ⟨fun _ _ _ h1 h2 => le_trans h2 h1⟩

/-- The sort `all_functions.sort(key=lambda x: x[2], reverse=True)`.
Python's sort is stable; a stable sort is extensionally unique, so we model
it by the stable `List.insertionSort` under `lenDescRel`. -/
def sortFns (rs : List FunctionRecord) : List FunctionRecord :=
  rs.insertionSort lenDescRel

/-- One report entry: `f"{i}. {name} ({path}:{start}) - {length} lines"`. -/
def formatEntry (rank : Nat) (r : FunctionRecord) : String :=
  let nm := String.mk r.name
  let p := r.source_path
  let s := r.start_line
  let l := r.length
  s!"{rank}. {nm} ({p}:{s}) - {l} lines"

/-- The entry lines for `enumerate(rs, rank)`. -/
def entryLinesFrom (rank : Nat) : List FunctionRecord → List String
  | [] => []
  | r :: rs => formatEntry rank r :: entryLinesFrom (rank + 1) rs

/-- The usage message printed when no directory argument is given. -/
def usageLine : String := "Usage: find_longest_functions.py <src_directory>"

/-- The report header. -/
def headerLine : String := "Top 5 longest functions:"

/-- The threshold warning `f"\nFound {k} functions exceeding 150 lines"`. -/
def countLine (k : Nat) : String := "\n" ++ s!"Found {k} functions exceeding 150 lines"

/-- What a run of `main` produces: the strings passed to `print`, in
order, and the argument of `sys.exit`. -/
structure MainResult where
  output : List String
  exitCode : Nat
deriving Repr, DecidableEq

/-- The records collected over the traversal: `all_functions`, extended by
`find_functions` for each discovered `.c` file.  A file is a pair of its
path and its read result (`none` = unreadable). -/
def collectRecords (files : List (String × Option (List Line))) :
    List FunctionRecord :=
  files.foldl (fun acc f => acc ++ find_functions f.2 f.1) []

/-- `main()`, as a function of `sys.argv` and of the files found by
`rglob('*.c')` together with their contents. -/
def mainRun (argv : List String) (files : List (String × Option (List Line))) :
    MainResult :=
  if argv.length < 2 then ⟨[usageLine], 1⟩
  else
    let all_functions := sortFns (collectRecords files)
    let top := all_functions.take 5
    let long_funcs := all_functions.filter (fun r => 150 < r.length)
    if long_funcs.isEmpty then
      ⟨headerLine :: entryLinesFrom 1 top, 0⟩
    else
      ⟨headerLine :: entryLinesFrom 1 top ++ [countLine long_funcs.length], 1⟩

/-! ### Helper notions used to state the claims -/

/-- A line that leaves the scanner unchanged while it is not inside a
function: it is skipped, or fails the signature match, or is a `typedef`
line. -/
def inertLine (l : Line) : Bool :=
  skipLine (strip l) || (sigMatch (strip l)).isNone || isTypedefLine (strip l)

/-- The line number at which a function body, entered with brace depth `d`
just before the line numbered `i`, first returns to depth zero — mirroring
the in-function branch of `scanStep` (skipped lines contribute nothing).
`none` when the depth never returns to zero within the given lines. -/
def closeIndex (d : Int) (i : Nat) : List Line → Option Nat
  | [] => none
  | l :: ls =>
    if skipLine (strip l) then closeIndex d (i + 1) ls
    else if d + braceDelta (strip l) = 0 then some i
    else closeIndex (d + braceDelta (strip l)) (i + 1) ls

/-- Sanity: a two-line function is detected. -/
example :
    find_functions (some [toLine "int f() \x7b", toLine "\x7d"]) "a.c" =
      [⟨toLine "f", 1, 2, "a.c"⟩] := by decide

/-- Sanity: `static` qualifier and pointer return type. -/
example :
    sigMatch (toLine "static char *name(int x) \x7b") = some (toLine "name") := by decide

/-- Sanity: two-token return types do not match the heuristic. -/
example : sigMatch (toLine "unsigned long foo(int x) \x7b") = none := by decide

/-- Sanity: a `typedef` line is inert. -/
example : inertLine (toLine "typedef foo(x)") = true := by decide

/-! ### Lemmas about the scanner -/

theorem scanLinesFrom_append (path : String) (xs ys : List Line) (st : ScanState)
    (i : Nat) :
    scanLinesFrom path st i (xs ++ ys) =
      scanLinesFrom path (scanLinesFrom path st i xs) (i + xs.length) ys := by
  induction xs generalizing st i with
  | nil => simp [scanLinesFrom]
  | cons l ls ih =>
    rw [List.cons_append, scanLinesFrom, scanLinesFrom, ih]
    congr 1
    simp
    omega

theorem scanStep_skip (path : String) (st : ScanState) (i : Nat) (l : Line)
    (h : skipLine (strip l) = true) : scanStep path st i l = st := by
  simp [scanStep, h]

theorem scanStep_inert (path : String) (st : ScanState) (i : Nat) (l : Line)
    (hin : st.in_function = false) (h : inertLine l = true) :
    scanStep path st i l = st := by
  have h2 : (skipLine (strip l) = true ∨ sigMatch (strip l) = none) ∨
      isTypedefLine (strip l) = true := by
    simpa [inertLine, Bool.or_eq_true] using h
  by_cases hs : skipLine (strip l) = true
  · exact scanStep_skip path st i l hs
  · rcases h2 with (h1 | h1) | h1
    · exact absurd h1 hs
    · simp [scanStep, hs, hin, h1]
    · cases hm : sigMatch (strip l) with
      | none => simp [scanStep, hs, hin, hm]
      | some nm => simp [scanStep, hs, hin, hm, h1]

theorem scanLinesFrom_inert (path : String) (ls : List Line) (st : ScanState) (i : Nat)
    (hin : st.in_function = false) (h : ∀ l ∈ ls, inertLine l = true) :
    scanLinesFrom path st i ls = st := by
  induction ls generalizing i with
  | nil => rfl
  | cons l ls ih =>
    rw [scanLinesFrom, scanStep_inert path st i l hin (h l (by simp))]
    exact ih (i + 1) (fun x hx => h x (by simp [hx]))

theorem scanStep_sig (path : String) (st : ScanState) (i : Nat) (l nm : Line)
    (hin : st.in_function = false)
    (hs : skipLine (strip l) = false)
    (hm : sigMatch (strip l) = some nm)
    (ht : isTypedefLine (strip l) = false) :
    scanStep path st i l =
      { in_function := true, func_start := i, func_name := nm,
        brace_count := braceDelta (strip l), functions := st.functions } := by
  simp [scanStep, hs, hin, hm, ht]

theorem scanLinesFrom_close (path : String) (ls : List Line) (st : ScanState)
    (i j : Nat) (hin : st.in_function = true)
    (hc : closeIndex st.brace_count i ls = some j) :
    i ≤ j ∧ j < i + ls.length ∧
      scanLinesFrom path st i ls =
        scanLinesFrom path
          { in_function := false, func_start := st.func_start, func_name := [],
            brace_count := 0,
            functions := st.functions ++
              [⟨st.func_name, st.func_start, j - st.func_start + 1, path⟩] }
          (j + 1) (ls.drop (j + 1 - i)) := by
  induction ls generalizing st i with
  | nil => simp [closeIndex] at hc
  | cons l ls ih =>
    rw [closeIndex] at hc
    by_cases hs : skipLine (strip l) = true
    · rw [if_pos hs] at hc
      obtain ⟨h1, h2, h3⟩ := ih st (i + 1) hin hc
      refine ⟨by omega, by simp only [List.length_cons]; omega, ?_⟩
      rw [scanLinesFrom, scanStep_skip path st i l hs, h3]
      have e : j + 1 - i = (j + 1 - (i + 1)) + 1 := by omega
      rw [e, List.drop_succ_cons]
    · rw [if_neg hs] at hc
      by_cases hz : st.brace_count + braceDelta (strip l) = 0
      · rw [if_pos hz] at hc
        obtain rfl : i = j := by simpa using hc
        have hstep : scanStep path st i l =
            { in_function := false, func_start := st.func_start, func_name := [],
              brace_count := 0,
              functions := st.functions ++
                [⟨st.func_name, st.func_start, i - st.func_start + 1, path⟩] } := by
          simp [scanStep, hs, hin, hz]
        refine ⟨Nat.le_refl i, by simp only [List.length_cons]; omega, ?_⟩
        rw [scanLinesFrom, hstep]
        have e : i + 1 - i = 1 := by omega
        rw [e, List.drop_succ_cons, List.drop_zero]
      · rw [if_neg hz] at hc
        have hstep : scanStep path st i l =
            { st with brace_count := st.brace_count + braceDelta (strip l) } := by
          simp [scanStep, hs, hin, hz]
        obtain ⟨h1, h2, h3⟩ :=
          ih { st with brace_count := st.brace_count + braceDelta (strip l) }
            (i + 1) hin hc
        refine ⟨by omega, by simp only [List.length_cons]; omega, ?_⟩
        rw [scanLinesFrom, hstep, h3]
        have e : j + 1 - i = (j + 1 - (i + 1)) + 1 := by omega
        rw [e, List.drop_succ_cons]

theorem scanLinesFrom_noclose (path : String) (ls : List Line) (st : ScanState)
    (i : Nat) (hin : st.in_function = true)
    (hc : closeIndex st.brace_count i ls = none) :
    (scanLinesFrom path st i ls).functions = st.functions := by
  induction ls generalizing st i with
  | nil => rfl
  | cons l ls ih =>
    rw [closeIndex] at hc
    rw [scanLinesFrom]
    by_cases hs : skipLine (strip l) = true
    · rw [if_pos hs] at hc
      rw [scanStep_skip path st i l hs]
      exact ih st (i + 1) hin hc
    · rw [if_neg hs] at hc
      by_cases hz : st.brace_count + braceDelta (strip l) = 0
      · rw [if_pos hz] at hc
        exact absurd hc (by simp)
      · rw [if_neg hz] at hc
        have hstep : scanStep path st i l =
            { st with brace_count := st.brace_count + braceDelta (strip l) } := by
          simp [scanStep, hs, hin, hz]
        rw [hstep]
        exact ih _ (i + 1) hin hc

/-! ### The claims -/

/-- C1: for a file whose lines contain exactly one well-formed function of
`n` lines — some inert lines, then a signature line matching the heuristic
(and not a `typedef`), then a body whose brace depth (skipped lines
contributing nothing) first returns to zero on its last line, the `n`-th
line of the function, then only inert lines — `find_functions` returns
exactly one record, with `length = n` and `start_line` the 1-based index
of the signature line. -/
theorem find_functions_single (path : String) (pre body post : List Line)
    (sig nm : Line) (n : Nat)
    (hpre : ∀ l ∈ pre, inertLine l = true)
    (hskip : skipLine (strip sig) = false)
    (hmatch : sigMatch (strip sig) = some nm)
    (htydef : isTypedefLine (strip sig) = false)
    (hblen : body.length = n - 1)
    (hclose : closeIndex (braceDelta (strip sig)) (pre.length + 2) body =
      some (pre.length + n))
    (hpost : ∀ l ∈ post, inertLine l = true) :
    find_functions (some (pre ++ sig :: (body ++ post))) path =
      [⟨nm, pre.length + 1, n, path⟩] := by
  have e0 : (pre ++ sig :: (body ++ post)) = pre ++ ([sig] ++ (body ++ post)) := by
    simp
  rw [find_functions, e0, scanLinesFrom_append,
    scanLinesFrom_inert path pre initState 1 rfl hpre, scanLinesFrom_append,
    scanLinesFrom_append]
  have e1 : (1 : Nat) + pre.length = pre.length + 1 := by omega
  rw [e1]
  have hsig : scanLinesFrom path initState (pre.length + 1) [sig] =
      { in_function := true, func_start := pre.length + 1, func_name := nm,
        brace_count := braceDelta (strip sig), functions := [] } := by
    rw [scanLinesFrom, scanLinesFrom,
      scanStep_sig path initState (pre.length + 1) sig nm rfl hskip hmatch htydef]
    rfl
  rw [hsig]
  have e2 : pre.length + 1 + ([sig] : List Line).length = pre.length + 2 := by simp
  rw [e2]
  obtain ⟨h1, h2, h3⟩ := scanLinesFrom_close path body
    { in_function := true, func_start := pre.length + 1, func_name := nm,
      brace_count := braceDelta (strip sig), functions := [] }
    (pre.length + 2) (pre.length + n) rfl hclose
  dsimp only at h3
  rw [h3]
  have e3 : pre.length + n + 1 - (pre.length + 2) = n - 1 := by omega
  rw [e3, hblen.symm, List.drop_length, scanLinesFrom]
  have e4 : pre.length + 2 + body.length = pre.length + n + 1 := by omega
  rw [e4]
  have e5 : pre.length + n - (pre.length + 1) + 1 = n := by omega
  rw [e5]
  rw [scanLinesFrom_inert path post _ (pre.length + n + 1) rfl hpost]
  rfl

/-- C3: a detected function whose brace depth never returns to zero before
the end of the file produces no record: with any prefix after which the
scanner is not inside a function, a trailing signature line whose body
never closes contributes nothing to the result. -/
theorem find_functions_unterminated (path : String) (front body : List Line)
    (sig nm : Line)
    (hfront : (scanLinesFrom path initState 1 front).in_function = false)
    (hskip : skipLine (strip sig) = false)
    (hmatch : sigMatch (strip sig) = some nm)
    (htydef : isTypedefLine (strip sig) = false)
    (hclose : closeIndex (braceDelta (strip sig)) (front.length + 2) body = none) :
    find_functions (some (front ++ sig :: body)) path =
      find_functions (some front) path := by
  have e0 : (front ++ sig :: body) = front ++ ([sig] ++ body) := by simp
  rw [find_functions, find_functions, e0, scanLinesFrom_append, scanLinesFrom_append]
  have e1 : (1 : Nat) + front.length = front.length + 1 := by omega
  rw [e1]
  set stF := scanLinesFrom path initState 1 front with hstF
  have hsig : scanLinesFrom path stF (front.length + 1) [sig] =
      { in_function := true, func_start := front.length + 1, func_name := nm,
        brace_count := braceDelta (strip sig), functions := stF.functions } := by
    rw [scanLinesFrom, scanLinesFrom,
      scanStep_sig path stF (front.length + 1) sig nm hfront hskip hmatch htydef]
  rw [hsig]
  have e2 : front.length + 1 + ([sig] : List Line).length = front.length + 2 := by
    simp
  rw [e2]
  exact scanLinesFrom_noclose path body _ (front.length + 2) rfl hclose

/-- C4: a line whose trimmed form is empty, or begins with `//`, or begins
with `#`, leaves the scanner state — in particular `brace_count` — fully
unchanged, whatever the state (so also while `in_function` is true): the
skip check precedes the in-function brace-counting step. -/
theorem scanStep_skipped_line_inert (path : String) (st : ScanState) (i : Nat)
    (l : Line)
    (h : strip l = [] ∨ startsWith "//" (strip l) = true ∨
      startsWith "#" (strip l) = true) :
    scanStep path st i l = st := by
  apply scanStep_skip
  rcases h with h1 | h1 | h1
  · simp [skipLine, h1]
  · simp [skipLine, h1]
  · simp [skipLine, h1]

/-- C5 counterexample: while `in_function` is true, a comment line is
skipped for brace-counting, contrary to the claim that its braces
contribute to `brace_count`: here the line `// }` has net brace count
`-1`, yet the state (and so `brace_count`) is unchanged. -/
theorem comment_line_braces_not_counted :
    ((⟨true, 1, toLine "f", 1, []⟩ : ScanState).in_function = true) ∧
    startsWith "//" (strip (toLine "// \x7d")) = true ∧
    braceDelta (strip (toLine "// \x7d")) ≠ 0 ∧
    scanStep "a.c" ⟨true, 1, toLine "f", 1, []⟩ 2 (toLine "// \x7d") =
      ⟨true, 1, toLine "f", 1, []⟩ := by
  refine ⟨rfl, by decide, by decide, ?_⟩
  decide

/-- C5 amended: while `in_function` is true, a line whose trimmed form is
empty or begins with `//` is skipped for brace-counting exactly like a
preprocessor line: all three kinds of line are skipped unconditionally
inside a function, and contribute nothing to `brace_count`. -/
theorem skipped_lines_inside_function (path : String) (st : ScanState) (i : Nat)
    (l : Line) (hin : st.in_function = true)
    (h : strip l = [] ∨ startsWith "//" (strip l) = true ∨
      startsWith "#" (strip l) = true) :
    (scanStep path st i l).brace_count = st.brace_count ∧
    (scanStep path st i l).in_function = true ∧
    (scanStep path st i l).functions = st.functions := by
  have hstep : scanStep path st i l = st := by
    apply scanStep_skip
    rcases h with h1 | h1 | h1
    · simp [skipLine, h1]
    · simp [skipLine, h1]
    · simp [skipLine, h1]
  rw [hstep]
  exact ⟨rfl, hin, rfl⟩

/-- C8: for a file whose contents cannot be opened or read (the `except`
branch of the `try`), `find_functions` returns the empty list; being a
total function, it propagates no exception. -/
theorem find_functions_read_failure (path : String) :
    find_functions none path = [] := rfl

/-! ### The scan invariant, for the record-shape claims -/

/-- The loop invariant of `find_functions` just before processing the line
numbered `i`: every accumulated record carries the scanned path, a
positive start line strictly below `i`, and a length of at least 2; the
records are in strictly increasing order of start line; and while inside a
function, the function started at a positive line strictly below `i` and
strictly above every accumulated record's start line. -/
def ScanInv (path : String) (st : ScanState) (i : Nat) : Prop :=
  (∀ r ∈ st.functions,
    r.source_path = path ∧ 1 ≤ r.start_line ∧ 2 ≤ r.length ∧ r.start_line < i) ∧
  st.functions.Pairwise (fun a b => a.start_line < b.start_line) ∧
  (st.in_function = true → 1 ≤ st.func_start ∧ st.func_start < i ∧
    ∀ r ∈ st.functions, r.start_line < st.func_start)

theorem scanStep_inv (path : String) (st : ScanState) (i : Nat) (l : Line)
    (hi : 1 ≤ i) (h : ScanInv path st i) :
    ScanInv path (scanStep path st i l) (i + 1) := by
  obtain ⟨hrec, hpw, hfun⟩ := h
  by_cases hs : skipLine (strip l) = true
  · rw [scanStep_skip path st i l hs]
    refine ⟨fun r hr => ?_, hpw, fun hf => ?_⟩
    · obtain ⟨a, b, c, d⟩ := hrec r hr
      exact ⟨a, b, c, by omega⟩
    · obtain ⟨a, b, c⟩ := hfun hf
      exact ⟨a, by omega, c⟩
  · cases hin : st.in_function with
    | true =>
      obtain ⟨ha, hb, hc⟩ := hfun hin
      by_cases hz : st.brace_count + braceDelta (strip l) = 0
      · have hstep : scanStep path st i l =
            { in_function := false, func_start := st.func_start, func_name := [],
              brace_count := 0,
              functions := st.functions ++
                [⟨st.func_name, st.func_start, i - st.func_start + 1, path⟩] } := by
          simp [scanStep, hs, hin, hz]
        rw [hstep]
        refine ⟨fun r hr => ?_, ?_, by simp⟩
        · rcases List.mem_append.mp hr with hr1 | hr1
          · obtain ⟨a, b, c, d⟩ := hrec r hr1
            exact ⟨a, b, c, by omega⟩
          · obtain rfl : r = ⟨st.func_name, st.func_start, i - st.func_start + 1, path⟩ := by
              simpa using hr1
            refine ⟨rfl, ha, ?_, ?_⟩
            · show 2 ≤ i - st.func_start + 1
              omega
            · show st.func_start < i + 1
              omega
        · rw [List.pairwise_append]
          exact ⟨hpw, List.pairwise_singleton _ _, fun a haa b hbb => by
            obtain rfl : b = ⟨st.func_name, st.func_start, i - st.func_start + 1, path⟩ := by
              simpa using hbb
            exact hc a haa⟩
      · have hstep : scanStep path st i l =
            { st with brace_count := st.brace_count + braceDelta (strip l) } := by
          simp [scanStep, hs, hin, hz]
        rw [hstep]
        refine ⟨fun r hr => ?_, hpw, fun _ => ⟨ha, ?_, hc⟩⟩
        · obtain ⟨a, b, c, d⟩ := hrec r hr
          exact ⟨a, b, c, by omega⟩
        · show st.func_start < i + 1
          omega
    | false =>
      cases hm : sigMatch (strip l) with
      | none =>
        have hstep : scanStep path st i l = st := by simp [scanStep, hs, hin, hm]
        rw [hstep]
        refine ⟨fun r hr => ?_, hpw, by simp [hin]⟩
        obtain ⟨a, b, c, d⟩ := hrec r hr
        exact ⟨a, b, c, by omega⟩
      | some nm =>
        by_cases ht : isTypedefLine (strip l) = true
        · have hstep : scanStep path st i l = st := by simp [scanStep, hs, hin, hm, ht]
          rw [hstep]
          refine ⟨fun r hr => ?_, hpw, by simp [hin]⟩
          obtain ⟨a, b, c, d⟩ := hrec r hr
          exact ⟨a, b, c, by omega⟩
        · have hstep : scanStep path st i l =
              { in_function := true, func_start := i, func_name := nm,
                brace_count := braceDelta (strip l), functions := st.functions } := by
            simp [scanStep, hs, hin, hm, ht]
          rw [hstep]
          refine ⟨fun r hr => ?_, hpw, fun _ => ⟨hi, by show i < i + 1; omega, fun r hr => ?_⟩⟩
          · obtain ⟨a, b, c, d⟩ := hrec r hr
            exact ⟨a, b, c, by omega⟩
          · exact (hrec r hr).2.2.2

theorem scanLinesFrom_inv (path : String) (ls : List Line) (st : ScanState)
    (i : Nat) (hi : 1 ≤ i) (h : ScanInv path st i) :
    ScanInv path (scanLinesFrom path st i ls) (i + ls.length) := by
  induction ls generalizing st i with
  | nil => simpa using h
  | cons l ls ih =>
    rw [scanLinesFrom]
    have := ih (scanStep path st i l) (i + 1) (by omega) (scanStep_inv path st i l hi h)
    simpa [Nat.add_assoc, Nat.add_comm 1 ls.length] using this

theorem find_functions_inv (path : String) (lines : List Line) :
    ScanInv path (scanLinesFrom path initState 1 lines) (1 + lines.length) :=
  scanLinesFrom_inv path lines initState 1 (Nat.le_refl 1)
    ⟨by simp [initState], by simp [initState], by simp [initState]⟩

/-- C9: every record returned by `find_functions` has `length ≥ 1` and
`start_line ≥ 1`, and no two records from one scan pass share the same
`(source_path, start_line)` pair. -/
theorem find_functions_record_invariants (path : String) (lines : List Line) :
    (∀ r ∈ find_functions (some lines) path, 1 ≤ r.length ∧ 1 ≤ r.start_line) ∧
    (find_functions (some lines) path).Pairwise
      (fun a b => (a.source_path, a.start_line) ≠ (b.source_path, b.start_line)) := by
  obtain ⟨hrec, hpw, _⟩ := find_functions_inv path lines
  constructor
  · intro r hr
    obtain ⟨_, b, c, _⟩ := hrec r hr
    exact ⟨by omega, b⟩
  · exact hpw.imp (fun {a b} hab => by
      intro hcontra
      have : a.start_line = b.start_line := congrArg Prod.snd hcontra
      omega)

/-- C10: every record returned by `find_functions` has `length ≥ 2`: the
`continue` after a matched signature line means the terminating check runs
only from the following line on, so a function's recorded end line is
strictly after its start line. -/
theorem find_functions_length_ge_two (path : String) (lines : List Line) :
    ∀ r ∈ find_functions (some lines) path, 2 ≤ r.length := by
  intro r hr
  obtain ⟨hrec, _, _⟩ := find_functions_inv path lines
  exact (hrec r hr).2.2.1

/-! ### Lemmas about the sort and the report -/

theorem sortFns_filter_length (rs : List FunctionRecord) (k : Nat) :
    (sortFns rs).filter (fun r => r.length = k) =
      rs.filter (fun r => r.length = k) := by
  have hA : List.Sublist (rs.filter (fun r => decide (r.length = k))) rs :=
    List.filter_sublist rs
  have hall : ∀ x ∈ rs.filter (fun r => decide (r.length = k)), x.length = k := by
    intro x hx
    simpa using (List.mem_filter.mp hx).2
  have hpw : (rs.filter (fun r => decide (r.length = k))).Pairwise lenDescRel := by
    apply List.pairwise_of_forall_mem_list
    intro a ha b hb
    show b.length ≤ a.length
    rw [hall a ha, hall b hb]
  have hsub : List.Sublist (rs.filter (fun r => decide (r.length = k))) (sortFns rs) :=
    List.sublist_insertionSort hpw hA
  have hsub2 : List.Sublist (rs.filter (fun r => decide (r.length = k)))
      ((sortFns rs).filter (fun r => decide (r.length = k))) := by
    have h2 := hsub.filter (fun r => decide (r.length = k))
    rwa [List.filter_eq_self.mpr (fun a ha => by simpa using hall a ha)] at h2
  have hperm : List.Perm ((sortFns rs).filter (fun r => decide (r.length = k)))
      (rs.filter (fun r => decide (r.length = k))) :=
    (List.perm_insertionSort lenDescRel rs).filter _
  exact (hsub2.eq_of_length hperm.length_eq.symm).symm

/-- C6: the sort of the aggregator is a permutation ordered by `length`
descending; records of any one equal length keep their original relative
(discovery) order; and sorting a list already sorted by length descending
returns it unchanged. -/
theorem sort_descending_stable_idempotent (rs : List FunctionRecord) (k : Nat) :
    List.Perm (sortFns rs) rs ∧
    List.Sorted lenDescRel (sortFns rs) ∧
    (sortFns rs).filter (fun r => r.length = k) =
      rs.filter (fun r => r.length = k) ∧
    (List.Sorted lenDescRel rs → sortFns rs = rs) :=
  ⟨List.perm_insertionSort lenDescRel rs, List.sorted_insertionSort lenDescRel rs,
    sortFns_filter_length rs k, fun h => h.insertionSort_eq⟩

/-- C2: the exit status is 1 without a directory argument; with one, it is
1 exactly when some collected record has length above 150, in which case
the count line (with the number of such records) ends the output, and 0
otherwise — in particular when no functions were found at all. -/
theorem main_exit_status (argv : List String)
    (files : List (String × Option (List Line))) :
    (argv.length < 2 → mainRun argv files = ⟨[usageLine], 1⟩) ∧
    (2 ≤ argv.length →
      ((collectRecords files).filter (fun r => 150 < r.length) = [] →
        (mainRun argv files).exitCode = 0 ∧
        (mainRun argv files).output =
          headerLine :: entryLinesFrom 1 ((sortFns (collectRecords files)).take 5)) ∧
      ((collectRecords files).filter (fun r => 150 < r.length) ≠ [] →
        (mainRun argv files).exitCode = 1 ∧
        (mainRun argv files).output =
          headerLine :: entryLinesFrom 1 ((sortFns (collectRecords files)).take 5) ++
            [countLine
              ((collectRecords files).filter (fun r => 150 < r.length)).length])) := by
  have hperm : List.Perm
      ((sortFns (collectRecords files)).filter (fun r => 150 < r.length))
      ((collectRecords files).filter (fun r => 150 < r.length)) :=
    (List.perm_insertionSort lenDescRel (collectRecords files)).filter _
  constructor
  · intro h
    simp [mainRun, h]
  · intro h
    have hlt : ¬ argv.length < 2 := by omega
    constructor
    · intro hfil
      have hempty : (sortFns (collectRecords files)).filter
          (fun r => 150 < r.length) = [] := by
        have h2 := hperm
        rw [hfil] at h2
        exact h2.eq_nil
      constructor
      · simp [mainRun, hlt, hempty]
      · simp [mainRun, hlt, hempty]
    · intro hfil
      have hne : (sortFns (collectRecords files)).filter
          (fun r => 150 < r.length) ≠ [] := by
        intro hh
        rw [hh] at hperm
        exact hfil hperm.symm.eq_nil
      have hlen : ((sortFns (collectRecords files)).filter
            (fun r => 150 < r.length)).length =
          ((collectRecords files).filter (fun r => 150 < r.length)).length :=
        hperm.length_eq
      constructor
      · simp [mainRun, hlt, hne]
      · simp [mainRun, hlt, hne, hlen]

theorem entryLinesFrom_length (rank : Nat) (rs : List FunctionRecord) :
    (entryLinesFrom rank rs).length = rs.length := by
  induction rs generalizing rank with
  | nil => rfl
  | cons r rs ih => simp [entryLinesFrom, ih]

theorem entryLinesFrom_getElem (rank : Nat) (rs : List FunctionRecord) (j : Nat) :
    (entryLinesFrom rank rs)[j]? =
      (rs[j]?).map (fun r => formatEntry (rank + j) r) := by
  induction rs generalizing rank j with
  | nil => simp [entryLinesFrom]
  | cons r rs ih =>
    cases j with
    | zero => simp [entryLinesFrom]
    | succ j =>
      have h2 := ih (rank + 1) j
      have e : rank + 1 + j = rank + (j + 1) := by omega
      rw [e] at h2
      simpa [entryLinesFrom] using h2

/-- C7: after the header line the report prints exactly the
`min 5 total` sorted records of greatest length, in descending length
order — every omitted record is no longer than every printed one — each
entry formatted by `formatEntry` with 1-based rank equal to its
position. -/
theorem report_top_five (argv : List String)
    (files : List (String × Option (List Line))) (h : 2 ≤ argv.length) :
    (∃ rest, (mainRun argv files).output =
      headerLine ::
        entryLinesFrom 1 ((sortFns (collectRecords files)).take 5) ++ rest) ∧
    (entryLinesFrom 1 ((sortFns (collectRecords files)).take 5)).length =
      min 5 (collectRecords files).length ∧
    List.Sorted lenDescRel ((sortFns (collectRecords files)).take 5) ∧
    (∀ x ∈ (sortFns (collectRecords files)).take 5,
      ∀ y ∈ (sortFns (collectRecords files)).drop 5, y.length ≤ x.length) ∧
    (∀ j : Nat, (entryLinesFrom 1 ((sortFns (collectRecords files)).take 5))[j]? =
      ((sortFns (collectRecords files)).take 5)[j]?.map
        (fun r => formatEntry (j + 1) r)) := by
  have hlt : ¬ argv.length < 2 := by omega
  refine ⟨?_, ?_, ?_, ?_, ?_⟩
  · by_cases he : ((sortFns (collectRecords files)).filter
        (fun r => 150 < r.length)).isEmpty = true
    · exact ⟨[], by simp [mainRun, hlt, he]⟩
    · exact ⟨[countLine ((sortFns (collectRecords files)).filter
          (fun r => 150 < r.length)).length], by simp [mainRun, hlt, he]⟩
  · rw [entryLinesFrom_length, List.length_take]
    simp [sortFns, List.length_insertionSort]
  · exact (List.sorted_insertionSort lenDescRel
      (collectRecords files)).sublist (List.take_sublist 5 _)
  · intro x hx y hy
    exact (List.sorted_insertionSort lenDescRel
      (collectRecords files)).rel_of_mem_take_of_mem_drop hx hy
  · intro j
    rw [entryLinesFrom_getElem]
    have e : 1 + j = j + 1 := by omega
    rw [e]

/-! ### Concrete witnesses -/

/-- Witness for C1 at a two-line function file. -/
theorem find_functions_single_witness :
    find_functions (some [toLine "int f() \x7b", toLine "\x7d"]) "a.c" =
      [⟨toLine "f", 1, 2, "a.c"⟩] := by
  have h := find_functions_single "a.c" [] [toLine "\x7d"] [] (toLine "int f() \x7b")
    (toLine "f") 2 (by simp) (by decide) (by decide) (by decide) (by decide)
    (by decide) (by simp)
  simpa using h

/-- Witness for C3: a function whose brace never closes yields no record. -/
theorem find_functions_unterminated_witness :
    find_functions (some [toLine "int f() \x7b", toLine "int x;"]) "a.c" = [] := by
  have h := find_functions_unterminated "a.c" [] [toLine "int x;"]
    (toLine "int f() \x7b") (toLine "f") (by decide) (by decide) (by decide)
    (by decide) (by decide)
  simpa using h

/-- Witness for C4: a preprocessor line with a brace, inside a function,
changes nothing. -/
theorem scanStep_skipped_line_inert_witness :
    scanStep "a.c" ⟨true, 1, toLine "f", 2, []⟩ 3 (toLine "#define X \x7b") =
      ⟨true, 1, toLine "f", 2, []⟩ :=
  scanStep_skipped_line_inert "a.c" ⟨true, 1, toLine "f", 2, []⟩ 3
    (toLine "#define X \x7b") (Or.inr (Or.inr (by decide)))

/-- Witness for the amended C5: a comment line with a brace, inside a
function, leaves the brace count, the in-function flag and the records
unchanged. -/
theorem skipped_lines_inside_function_witness :
    (scanStep "a.c" ⟨true, 1, toLine "f", 2, []⟩ 3 (toLine "// \x7b")).brace_count =
      (⟨true, 1, toLine "f", 2, []⟩ : ScanState).brace_count ∧
    (scanStep "a.c" ⟨true, 1, toLine "f", 2, []⟩ 3 (toLine "// \x7b")).in_function = true ∧
    (scanStep "a.c" ⟨true, 1, toLine "f", 2, []⟩ 3 (toLine "// \x7b")).functions =
      (⟨true, 1, toLine "f", 2, []⟩ : ScanState).functions :=
  skipped_lines_inside_function "a.c" ⟨true, 1, toLine "f", 2, []⟩ 3 (toLine "// \x7b")
    rfl (Or.inr (Or.inl (by decide)))

/-- Witness for C2: a missing argument exits 1; with an argument and no
records, the exit status is 0. -/
theorem main_exit_status_witness :
    mainRun ["prog"] [] = ⟨[usageLine], 1⟩ ∧
    (mainRun ["prog", "src"] []).exitCode = 0 := by
  refine ⟨(main_exit_status ["prog"] []).1 (by decide), ?_⟩
  exact (((main_exit_status ["prog", "src"] []).2 (by decide)).1 (by decide)).1

/-- Witness for C6: a list already sorted by length descending is returned
unchanged. -/
theorem sort_descending_stable_idempotent_witness :
    sortFns [⟨toLine "a", 1, 9, "a.c"⟩, ⟨toLine "b", 5, 3, "a.c"⟩] =
      [⟨toLine "a", 1, 9, "a.c"⟩, ⟨toLine "b", 5, 3, "a.c"⟩] :=
  (sort_descending_stable_idempotent
    [⟨toLine "a", 1, 9, "a.c"⟩, ⟨toLine "b", 5, 3, "a.c"⟩] 0).2.2.2
    (by simp [List.sorted_cons, lenDescRel])

/-- Witness for C7: with one collected record, the report has exactly
`min 5 1` entries. -/
theorem report_top_five_witness :
    (entryLinesFrom 1 ((sortFns (collectRecords
        [("a.c", some [toLine "int f() \x7b", toLine "\x7d"])])).take 5)).length =
      min 5 (collectRecords [("a.c", some [toLine "int f() \x7b", toLine "\x7d"])]).length :=
  (report_top_five ["prog", "src"] [("a.c", some [toLine "int f() \x7b", toLine "\x7d"])]
    (by decide)).2.1

/-- Witness for C9 at a concrete record of a concrete scan. -/
theorem find_functions_record_invariants_witness :
    1 ≤ (⟨toLine "f", 1, 2, "a.c"⟩ : FunctionRecord).length ∧
    1 ≤ (⟨toLine "f", 1, 2, "a.c"⟩ : FunctionRecord).start_line :=
  (find_functions_record_invariants "a.c" [toLine "int f() \x7b", toLine "\x7d"]).1
    ⟨toLine "f", 1, 2, "a.c"⟩ (by decide)

/-- Witness for C10 at a concrete record of a concrete scan. -/
theorem find_functions_length_ge_two_witness :
    2 ≤ (⟨toLine "f", 1, 2, "a.c"⟩ : FunctionRecord).length :=
  find_functions_length_ge_two "a.c" [toLine "int f() \x7b", toLine "\x7d"]
    ⟨toLine "f", 1, 2, "a.c"⟩ (by decide)

end FindLongest
